import Mathlib

/-!
# Verification of the ureact propagation engine (single-header `ureact.hpp`)

This development gives a shallow embedding of the core of the ureact
reactive value-propagation engine and proves the specified behaviour of
its pieces:

* `var_node` — input signal nodes with staged writes
  (`add_input` / `modify_input` / `apply_input`);
* `signal_op_node` — computed nodes (`tick` with the equality gate);
* `flatten_node` — dynamically rewiring signal-of-signal nodes;
* the node topology (`on_node_attach` / `on_node_detach` /
  `invalidate_successors` / `on_dynamic_node_attach`) and its level
  invariant;
* the `react_graph` transaction machinery (`do_transaction`,
  `add_input` dispatch, the simple-input fast path, observer cleanup);
* the `topological_queue` (`fetch_next`);
* the `observer` handle (`detach` / `unregister_observer`).

Machine integers (`int` levels, transaction counters) are embedded as
`Int`; pointers to nodes are embedded as `Nat` identifiers; values held
by signals are embedded polymorphically with decidable equality standing
for the library's `equals` (which is `operator==` on values), or as
`Int` where a concrete value type is needed.
-/

namespace Ureact

/-! ## Var nodes (`var_node<S>`)

State of a `var_node`: the live value `m_value`, the staged value
`m_new_value`, and the two pending flags. -/

structure var_node (α : Type) where
  m_value : α
  m_new_value : α
  m_is_input_added : Bool
  m_is_input_modified : Bool
deriving DecidableEq, Repr

/-- `var_node::add_input` (ureact.hpp:1007-1017): stores the new value
into `m_new_value`, raises `m_is_input_added` and clears
`m_is_input_modified` (the set flag takes precedence over modify). -/
def var_node.add_input {α : Type} (n : var_node α) (v : α) : var_node α :=
  { n with m_new_value := v, m_is_input_added := true, m_is_input_modified := false }

/-- `var_node::modify_input` (ureact.hpp:1020-1037): if no set is
pending, applies `func` to the live `m_value` and raises
`m_is_input_modified`; otherwise applies `func` to the staged
`m_new_value` (leaving the flags as they are). -/
def var_node.modify_input {α : Type} (n : var_node α) (func : α → α) : var_node α :=
  if n.m_is_input_added = false then
    { n with m_value := func n.m_value, m_is_input_modified := true }
  else
    { n with m_new_value := func n.m_new_value }

/-- Result of `var_node::apply_input`: the updated node, the returned
`bool` (did the node change), and whether
`react_graph::on_input_change` was invoked. -/
structure apply_result (α : Type) where
  node : var_node α
  changed : Bool
  notified : Bool
deriving DecidableEq, Repr

/-- `var_node::apply_input` (ureact.hpp:1039-1061): if a set is pending,
clear the flag and compare live vs staged with `equals`; on inequality
move staged into live, notify the graph of an input change and return
`true`, otherwise return `false`.  Else, if a modify is pending, clear
the flag, notify unconditionally and return `true`.  Else return
`false`. -/
def var_node.apply_input {α : Type} [DecidableEq α] (n : var_node α) : apply_result α :=
  if n.m_is_input_added then
    let n1 := { n with m_is_input_added := false }
    if n.m_value = n.m_new_value then
      { node := n1, changed := false, notified := false }
    else
      { node := { n1 with m_value := n.m_new_value }, changed := true, notified := true }
  else if n.m_is_input_modified then
    { node := { n with m_is_input_modified := false }, changed := true, notified := true }
  else
    { node := n, changed := false, notified := false }

/-! ## Computed nodes (`signal_op_node<S, op_t>`)

The operation is embedded as a pure function `op_eval` of the current
dependency state `deps` (the recursive `function_op::evaluate` reads the
leaf signals' values and applies the user function). -/

structure signal_op_node (α : Type) where
  m_value : α
deriving DecidableEq, Repr

/-- `signal_op_node::tick` (ureact.hpp:1239-1257): evaluate the
operation; if the result is unequal to the stored value, move it into
the stored value and pulse (`on_node_pulse`), otherwise do nothing.
Returns the updated node and whether a pulse was emitted. -/
def signal_op_node.tick {α σ : Type} [DecidableEq α]
    (n : signal_op_node α) (op_eval : σ → α) (deps : σ) : signal_op_node α × Bool :=
  let new_value := op_eval deps
  if n.m_value = new_value then
    (n, false)
  else
    ({ m_value := new_value }, true)

/-! ## Node topology (`reactive_node`, `react_graph` attach/detach)

A `reactive_node` carries the scheduling fields of the C++ base class;
nodes are addressed by `Nat` identifiers and the node store is a total
map from identifiers to nodes. -/

structure reactive_node where
  level : Int
  new_level : Int
  queued : Bool
  successors : List Nat
deriving DecidableEq, Repr

/-- The initial state of every `reactive_node`
(`level = 0`, `new_level = 0`, `queued = false`, no successors). -/
def reactive_node.init : reactive_node :=
  { level := 0, new_level := 0, queued := false, successors := [] }

/-- The node store of a graph: node identifier to node state. -/
abbrev node_map := Nat → reactive_node

/-- Pointwise update of one node in the store. -/
def node_map.upd (g : node_map) (i : Nat) (f : reactive_node → reactive_node) : node_map :=
  fun j => if j = i then f (g j) else g j

/-- A store in which every node is freshly constructed. -/
def init_nodes : node_map := fun _ => reactive_node.init

/-- The level adjustment of `on_node_attach` (ureact.hpp:772-775): if
`node.level <= parent.level`, set `node.level` to `parent.level + 1`. -/
def attach_bump (g1 : node_map) (node parent : Nat) : node_map :=
  if (g1 node).level ≤ (g1 parent).level then
    g1.upd node (fun n => { n with level := (g1 parent).level + 1 })
  else
    g1

/-- `react_graph::on_node_attach` (ureact.hpp:768-776): append `node` to
`parent.successors`; then, if `node.level <= parent.level`, set
`node.level` to `parent.level + 1`. -/
def on_node_attach (g : node_map) (node parent : Nat) : node_map :=
  attach_bump (g.upd parent (fun p => { p with successors := p.successors ++ [node] }))
    node parent

/-- `react_graph::on_node_detach` (ureact.hpp:778-783): erase the first
occurrence of `node` from `parent.successors`.  (The C++ erases the
iterator returned by `find`; in the engine the edge is always present.)
No level field is touched. -/
def on_node_detach (g : node_map) (node parent : Nat) : node_map :=
  g.upd parent (fun p => { p with successors := p.successors.erase node })

/-- `react_graph::invalidate_successors` (ureact.hpp:844-853): for every
successor of `node`, raise its `new_level` to `node.level + 1` when it
is not already higher. -/
def invalidate_successors (g : node_map) (node : Nat) : node_map :=
  (g node).successors.foldl
    (fun gc succ =>
      if (gc succ).new_level ≤ (gc node).level then
        gc.upd succ (fun s => { s with new_level := (gc node).level + 1 })
      else
        gc)
    g

/-- `react_graph::on_dynamic_node_attach` (ureact.hpp:815-824):
`on_node_attach`, then `invalidate_successors(node)`, then mark `node`
queued and push it onto the scheduled queue at its (possibly bumped)
level.  The queue is carried alongside the node store as a list of
`(node, level)` pushes. -/
def on_dynamic_node_attach (g : node_map) (q : List (Nat × Int)) (node parent : Nat) :
    node_map × List (Nat × Int) :=
  let g1 := on_node_attach g node parent
  let g2 := invalidate_successors g1 node
  let g3 := g2.upd node (fun n => { n with queued := true })
  (g3, q ++ [(node, (g3 node).level)])

/-- `react_graph::on_dynamic_node_detach` (ureact.hpp:826-829): plain
`on_node_detach`. -/
def on_dynamic_node_detach (g : node_map) (node parent : Nat) : node_map :=
  on_node_detach g node parent

/-- The edge/level invariant of the spec: for every edge `p → s` in the
successor lists, `level(s) > level(p)`. -/
def edge_invariant (g : node_map) : Prop :=
  ∀ p s : Nat, s ∈ (g p).successors → (g p).level < (g s).level

/-- A sequence of static topology operations on the node store. -/
inductive graph_op where
  | attach (node parent : Nat)
  | detach (node parent : Nat)
deriving DecidableEq, Repr

/-- Run one topology operation. -/
def graph_op.run (g : node_map) : graph_op → node_map
  | .attach node parent => on_node_attach g node parent
  | .detach node parent => on_node_detach g node parent

/-- Run a list of topology operations left to right. -/
def run_ops (g : node_map) (ops : List graph_op) : node_map :=
  ops.foldl graph_op.run g

/-- A run of topology operations in which every attached successor is
"fresh": it has no outgoing edges at attach time and is distinct from
its parent.  This is how the engine uses `on_node_attach` statically:
the only callers are node constructors attaching the node being
constructed (which cannot have successors yet) to its dependencies. -/
inductive fresh_run : node_map → List graph_op → Prop
  | nil (g : node_map) : fresh_run g []
  | attach (g : node_map) (node parent : Nat) (ops : List graph_op)
      (hfresh : (g node).successors = [])
      (hne : node ≠ parent)
      (hrest : fresh_run (on_node_attach g node parent) ops) :
      fresh_run g (.attach node parent :: ops)
  | detach (g : node_map) (node parent : Nat) (ops : List graph_op)
      (hrest : fresh_run (on_node_detach g node parent) ops) :
      fresh_run g (.detach node parent :: ops)

/-! ## Flatten nodes (`flatten_node<outer_t, inner_t>`)

The outer signal's current value designates an inner node; it is
embedded as the identifier `outer_value` of that inner node (the C++
compares `shared_ptr`s, i.e. node identity).  The inner signals' current
values are embedded as a map `inner_value` from identifiers to values. -/

structure flatten_node (α : Type) where
  m_value : α
  m_inner : Nat
deriving DecidableEq, Repr

/-- Graph interactions performed by one `flatten_node::tick`. -/
inductive flatten_effect where
  | dyn_detach (inner : Nat)
  | dyn_attach (inner : Nat)
  | pulse
deriving DecidableEq, Repr

/-- `flatten_node::tick` (ureact.hpp:1300-1321): read the outer signal's
value (`new_inner`); if it designates a different node than the tracked
inner, replace the tracked inner, perform a dynamic detach from the old
inner then a dynamic attach to the new one, and return without touching
the stored value and without pulsing.  Otherwise, if the inner's value
is unequal to the stored value, store it and pulse. -/
def flatten_node.tick {α : Type} [DecidableEq α] (n : flatten_node α)
    (outer_value : Nat) (inner_value : Nat → α) : flatten_node α × List flatten_effect :=
  let new_inner := outer_value
  if new_inner ≠ n.m_inner then
    ({ n with m_inner := new_inner },
      [.dyn_detach n.m_inner, .dyn_attach new_inner])
  else if ¬ (n.m_value = inner_value n.m_inner) then
    ({ n with m_value := inner_value n.m_inner }, [.pulse])
  else
    (n, [])

/-! ## The topological queue (`react_graph::topological_queue`) -/

/-- `std::numeric_limits<int>::max()`, the start value of the minimum
search in `fetch_next`. -/
def int_max : Int := 2147483647

/-- The queue stores `(node, level)` entries (`m_queue_data`) and the
current wave (`m_next_data`). -/
structure topological_queue where
  m_queue_data : List (Nat × Int)
  m_next_data : List Nat
deriving DecidableEq, Repr

/-- `topological_queue::push` (ureact.hpp:645-648). -/
def topological_queue.push (q : topological_queue) (value : Nat) (level : Int) :
    topological_queue :=
  { q with m_queue_data := q.m_queue_data ++ [(value, level)] }

/-- The minimum search of `fetch_next` (ureact.hpp:736-744): fold over
the queued entries, lowering the accumulator whenever it exceeds the
entry's level. -/
def queue_min_level (l : List (Nat × Int)) (init : Int) : Int :=
  l.foldl (fun m e => if m > e.2 then e.2 else m) init

/-- `topological_queue::fetch_next` (ureact.hpp:731-766): clear the
previous wave; compute the minimal level of the queued entries (folding
from `INT_MAX`); partition the entries by `level ≠ minimal`; move the
minimal-level entries' nodes into `m_next_data` and keep the rest
queued; return whether the wave is nonempty.  `std::partition` leaves
the order within the two groups unspecified, so it is embedded by the
stable partition with the same contract. -/
def topological_queue.fetch_next (q : topological_queue) : topological_queue × Bool :=
  let minimal_level := queue_min_level q.m_queue_data int_max
  let part := q.m_queue_data.partition (fun e => e.2 ≠ minimal_level)
  let next := part.2.map Prod.fst
  ({ m_queue_data := part.1, m_next_data := next }, !next.isEmpty)

/-! ## Observer handles (`ureact::observer`) -/

/-- The state of an `observer` handle: `m_node_ptr` is the raw pointer
to the observer node (`none` embeds `nullptr`, as in a
default-constructed or moved-from handle).  The strong subject pointer
is carried separately as `subject_state`. -/
structure observer_handle where
  m_node_ptr : Option Nat
deriving DecidableEq, Repr

/-- The observer list of an `observable` subject (`m_observers`, by
observer-node identity). -/
structure subject_state where
  m_observers : List Nat
deriving DecidableEq, Repr

/-- `observable::unregister_observer` (ureact.hpp:539-550): linear scan
for the raw pointer; on a hit, sever the observer's back-link and erase
it (first occurrence); on a miss, do nothing. -/
def subject_state.unregister_observer (s : subject_state) (raw_obs_ptr : Nat) :
    subject_state :=
  if raw_obs_ptr ∈ s.m_observers then
    { m_observers := s.m_observers.erase raw_obs_ptr }
  else
    s

/-- `observer::detach` (ureact.hpp:1843-1847): `assert(is_valid())`,
then `m_subject_ptr->unregister_observer(m_node_ptr)`.  A failed assert
(an invalid handle, `m_node_ptr == nullptr`) aborts, embedded as
`none`.  Note that `detach` does not modify the handle itself. -/
def observer_handle.detach (h : observer_handle) (s : subject_state) :
    Option subject_state :=
  match h.m_node_ptr with
  | none => none
  | some p => some (s.unregister_observer p)

/-! ## The reactive graph and transactions (`react_graph`)

Transaction-level state: the var nodes (with `Int` values), the
scheduling fields of all nodes, the pending pushes of the topological
queue, the transaction nesting counter, the staged-input list and the
observer-detach queue.  Two counters log the externally visible
effects this section's claims are about: the number of `propagate()`
invocations and the processed observer detaches (`unregister_self`
calls, in order).  `propagate`'s internal wave loop is the subject of
the `topological_queue` and node `tick` models above; at the
transaction level only the fact of its invocation matters and it is
logged by the counter. -/

structure graph_state where
  m_vars : Nat → var_node Int
  m_nodes : node_map
  m_scheduled : List (Nat × Int)
  m_transaction_level : Int
  m_changed_inputs : List Nat
  m_detached_observers : List Nat
  propagate_count : Nat
  unregistered : List Nat

/-- The loop body of `react_graph::process_children` (ureact.hpp:834-841):
if the successor is not queued, mark it queued and push it at its
current level. -/
def graph_state.pc_step (gc : graph_state) (succ : Nat) : graph_state :=
  if (gc.m_nodes succ).queued = false then
    { gc with
      m_nodes := gc.m_nodes.upd succ (fun s => { s with queued := true }),
      m_scheduled := gc.m_scheduled ++ [(succ, (gc.m_nodes succ).level)] }
  else
    gc

/-- `react_graph::process_children` (ureact.hpp:831-842): enqueue every
not-yet-queued successor at its current level and set its `queued`
flag. -/
def graph_state.process_children (g : graph_state) (node : Nat) : graph_state :=
  (g.m_nodes node).successors.foldl graph_state.pc_step g

/-- `react_graph::on_input_change` (ureact.hpp:785-788). -/
def graph_state.on_input_change (g : graph_state) (node : Nat) : graph_state :=
  g.process_children node

/-- `react_graph::propagate` (ureact.hpp:795-813), abstracted to the
event of its invocation: the wave loop itself is specified by
`topological_queue.fetch_next` and the node `tick` functions. -/
def graph_state.propagate (g : graph_state) : graph_state :=
  { g with propagate_count := g.propagate_count + 1 }

/-- `react_graph::detach_queued_observers` (ureact.hpp:664-671): call
`unregister_self` on each queued observer (logged, in order) and clear
the queue. -/
def graph_state.detach_queued_observers (g : graph_state) : graph_state :=
  { g with
    unregistered := g.unregistered ++ g.m_detached_observers,
    m_detached_observers := [] }

/-- Replace the state of var node `id`. -/
def graph_state.set_var (g : graph_state) (id : Nat) (v : var_node Int) : graph_state :=
  { g with m_vars := fun j => if j = id then v else g.m_vars j }

/-- `var_node::apply_input` as run inside the graph: the pure
`var_node.apply_input` step, plus the `on_input_change` notification
when it was issued.  Returns the C++ return value and the new state. -/
def graph_state.apply_input (g : graph_state) (id : Nat) : Bool × graph_state :=
  let r := (g.m_vars id).apply_input
  let g1 := g.set_var id r.node
  (r.changed, if r.notified then g1.on_input_change id else g1)

/-- One iteration of the apply loop of `react_graph::do_transaction`
(ureact.hpp:577-583): apply one staged input, or-ing its result into
`should_propagate`. -/
def graph_state.ai_step (acc : Bool × graph_state) (id : Nat) : Bool × graph_state :=
  let r := acc.2.apply_input id
  (acc.1 || r.1, r.2)

/-- The apply phase of `react_graph::do_transaction` (ureact.hpp:576-584):
call `apply_input` on each staged input in order, or-ing the results
into `should_propagate`. -/
def graph_state.apply_inputs (g : graph_state) (ids : List Nat) : Bool × graph_state :=
  ids.foldl graph_state.ai_step (false, g)

/-- `react_graph::add_transaction_input` (ureact.hpp:701-707): stage the
set on the var node and record it in `m_changed_inputs`. -/
def graph_state.add_transaction_input (g : graph_state) (id : Nat) (v : Int) : graph_state :=
  let g1 := g.set_var id ((g.m_vars id).add_input v)
  { g1 with m_changed_inputs := g1.m_changed_inputs ++ [id] }

/-- `react_graph::modify_transaction_input` (ureact.hpp:709-715): run the
modify on the var node and record it in `m_changed_inputs`. -/
def graph_state.modify_transaction_input (g : graph_state) (id : Nat) (func : Int → Int) :
    graph_state :=
  let g1 := g.set_var id ((g.m_vars id).modify_input func)
  { g1 with m_changed_inputs := g1.m_changed_inputs ++ [id] }

/-- `react_graph::add_simple_input` (ureact.hpp:674-685): stage the set,
apply it inline, propagate if it reported a change, then run the
observer-detach queue. -/
def graph_state.add_simple_input (g : graph_state) (id : Nat) (v : Int) : graph_state :=
  let g1 := g.set_var id ((g.m_vars id).add_input v)
  let r := g1.apply_input id
  let g2 := if r.1 then r.2.propagate else r.2
  g2.detach_queued_observers

/-- `react_graph::modify_simple_input` (ureact.hpp:687-698). -/
def graph_state.modify_simple_input (g : graph_state) (id : Nat) (func : Int → Int) :
    graph_state :=
  let g1 := g.set_var id ((g.m_vars id).modify_input func)
  let r := g1.apply_input id
  let g2 := if r.1 then r.2.propagate else r.2
  g2.detach_queued_observers

/-- `react_graph::add_input` (ureact.hpp:595-606): dispatch on whether a
transaction is active. -/
def graph_state.add_input (g : graph_state) (id : Nat) (v : Int) : graph_state :=
  if g.m_transaction_level > 0 then
    g.add_transaction_input id v
  else
    g.add_simple_input id v

/-- `react_graph::modify_input` (ureact.hpp:608-619). -/
def graph_state.modify_input (g : graph_state) (id : Nat) (func : Int → Int) : graph_state :=
  if g.m_transaction_level > 0 then
    g.modify_transaction_input id func
  else
    g.modify_simple_input id func

/-- `react_graph::do_transaction` (ureact.hpp:562-593): increment the
nesting level, run the body, decrement; if still nested, return; else
apply all staged inputs, clear the staged list, propagate once if any
apply reported a change, and process the queued observer detaches. -/
def graph_state.do_transaction (g : graph_state) (func : graph_state → graph_state) :
    graph_state :=
  let g1 := { g with m_transaction_level := g.m_transaction_level + 1 }
  let g2 := func g1
  let g3 := { g2 with m_transaction_level := g2.m_transaction_level - 1 }
  if g3.m_transaction_level ≠ 0 then
    g3
  else
    let r := g3.apply_inputs g3.m_changed_inputs
    let g5 := { r.2 with m_changed_inputs := [] }
    let g6 := if r.1 then g5.propagate else g5
    g6.detach_queued_observers

/-- A concrete quiescent graph state used to instantiate the
transaction-level theorems: every var holds 0 with no pending input,
every node is fresh, nothing is scheduled or staged. -/
def quiet_state : graph_state :=
  { m_vars := fun _ =>
      { m_value := 0, m_new_value := 0,
        m_is_input_added := false, m_is_input_modified := false },
    m_nodes := init_nodes,
    m_scheduled := [],
    m_transaction_level := 0,
    m_changed_inputs := [],
    m_detached_observers := [],
    propagate_count := 0,
    unregistered := [] }

/-! ## Theorems -/

/-- Claim C1: for every var node, `apply_input` returns whether the node
changed, by cases: if a set is pending, it clears the pending-set flag
and compares the live value with the staged value — if unequal it moves
the staged value into the live value, notifies the graph of an input
change and returns `true`, otherwise it returns `false` without
notifying; else if a modify is pending, it clears the pending-modify
flag, notifies and returns `true` without any equality check; else it
returns `false`. -/
theorem var_apply_input_correct {α : Type} [DecidableEq α] (n : var_node α) :
    (n.m_is_input_added = true →
      (n.m_value ≠ n.m_new_value →
        n.apply_input =
          { node := { n with m_is_input_added := false, m_value := n.m_new_value },
            changed := true, notified := true })
      ∧ (n.m_value = n.m_new_value →
        n.apply_input =
          { node := { n with m_is_input_added := false },
            changed := false, notified := false }))
    ∧ (n.m_is_input_added = false → n.m_is_input_modified = true →
        n.apply_input =
          { node := { n with m_is_input_modified := false },
            changed := true, notified := true })
    ∧ (n.m_is_input_added = false → n.m_is_input_modified = false →
        n.apply_input = { node := n, changed := false, notified := false }) := by
  refine ⟨fun ha => ⟨fun hne => ?_, fun heq => ?_⟩, fun ha hm => ?_, fun ha hm => ?_⟩
  · simp [var_node.apply_input, ha, hne]
  · simp [var_node.apply_input, ha, heq]
  · simp [var_node.apply_input, ha, hm]
  · simp [var_node.apply_input, ha, hm]

/-- Witness for `var_apply_input_correct` at a concrete var node with a
pending set of an unequal value. -/
theorem var_apply_input_correct_witness :
    (var_node.apply_input
        { m_value := 1, m_new_value := 2,
          m_is_input_added := true, m_is_input_modified := false } : apply_result Int) =
      { node := { m_value := 2, m_new_value := 2,
                  m_is_input_added := false, m_is_input_modified := false },
        changed := true, notified := true } :=
  ((var_apply_input_correct
      ({ m_value := 1, m_new_value := 2,
         m_is_input_added := true, m_is_input_modified := false } : var_node Int)).1
    rfl).1 (by decide)

/-- Claim C2: for every computed (signal-op) node, `tick` first
evaluates the operation; if the new value is unequal to the stored
value it moves the new value into the stored value and pulses; if equal
it does nothing — stored value unchanged, no pulse. -/
theorem signal_op_tick_correct {α σ : Type} [DecidableEq α]
    (n : signal_op_node α) (op_eval : σ → α) (deps : σ) :
    (op_eval deps ≠ n.m_value →
      n.tick op_eval deps = ({ m_value := op_eval deps }, true))
    ∧ (op_eval deps = n.m_value → n.tick op_eval deps = (n, false)) := by
  constructor
  · intro hne
    simp [signal_op_node.tick, Ne.symm hne]
  · intro heq
    simp [signal_op_node.tick, heq]

/-- Witness for `signal_op_tick_correct`: a concrete computed node whose
operation evaluates to an unequal value updates and pulses. -/
theorem signal_op_tick_correct_witness :
    signal_op_node.tick ({ m_value := 3 } : signal_op_node Int) (fun d : Int => d) 5 =
      ({ m_value := 5 }, true) :=
  (signal_op_tick_correct ({ m_value := 3 } : signal_op_node Int)
    (fun d : Int => d) 5).1 (by decide)

/-- Claim C8: staging a set copies the new value into the staged value,
sets the pending-set flag and clears the pending-modify flag; staging a
modify applies the function to the live value and sets the
pending-modify flag when no set is pending, and otherwise applies the
function to the staged value, so a set-then-modify chain stays on the
set path and remains gated by the equality comparison at apply. -/
theorem var_stage_correct {α : Type} [DecidableEq α]
    (n : var_node α) (v : α) (func : α → α) :
    n.add_input v =
      { n with m_new_value := v, m_is_input_added := true, m_is_input_modified := false }
    ∧ (n.m_is_input_added = false →
        n.modify_input func =
          { n with m_value := func n.m_value, m_is_input_modified := true })
    ∧ (n.m_is_input_added = true →
        n.modify_input func = { n with m_new_value := func n.m_new_value })
    ∧ (n.m_is_input_added = true → n.m_value = func n.m_new_value →
        ((n.modify_input func).apply_input).changed = false) := by
  refine ⟨rfl, fun ha => ?_, fun ha => ?_, fun ha heq => ?_⟩
  · simp [var_node.modify_input, ha]
  · simp [var_node.modify_input, ha]
  · simp [var_node.modify_input, var_node.apply_input, ha, heq]

/-- Witness for `var_stage_correct`: a concrete set-then-modify chain on
the set path whose modified staged value equals the live value is gated
off at apply. -/
theorem var_stage_correct_witness :
    (var_node.add_input
        { m_value := 7, m_new_value := 0,
          m_is_input_added := false, m_is_input_modified := false } 4 : var_node Int) =
      { m_value := 7, m_new_value := 4,
        m_is_input_added := true, m_is_input_modified := false }
    ∧ (var_node.apply_input
        (var_node.modify_input
          ({ m_value := 7, m_new_value := 4,
             m_is_input_added := true, m_is_input_modified := false } : var_node Int)
          (fun x => x + 3))).changed = false :=
  ⟨(var_stage_correct
      ({ m_value := 7, m_new_value := 0,
         m_is_input_added := false, m_is_input_modified := false } : var_node Int)
      4 (fun x => x + 3)).1,
   (var_stage_correct
      ({ m_value := 7, m_new_value := 4,
         m_is_input_added := true, m_is_input_modified := false } : var_node Int)
      4 (fun x => x + 3)).2.2.2 rfl (by decide)⟩

/-! ### Lemmas about the minimum search of `fetch_next` -/

theorem queue_min_level_le_init (l : List (Nat × Int)) (init : Int) :
    queue_min_level l init ≤ init := by
  induction l generalizing init with
  | nil => exact le_refl init
  | cons a t ih =>
    have hstep : queue_min_level (a :: t) init
        = queue_min_level t (if init > a.2 then a.2 else init) := rfl
    rw [hstep]
    refine le_trans (ih _) ?_
    split <;> omega

theorem queue_min_level_le_mem (l : List (Nat × Int)) (init : Int) :
    ∀ e ∈ l, queue_min_level l init ≤ e.2 := by
  induction l generalizing init with
  | nil => intro e he; cases he
  | cons a t ih =>
    intro e he
    have hstep : queue_min_level (a :: t) init
        = queue_min_level t (if init > a.2 then a.2 else init) := rfl
    rcases List.mem_cons.mp he with rfl | ht
    · rw [hstep]
      refine le_trans (queue_min_level_le_init t _) ?_
      split <;> omega
    · rw [hstep]
      exact ih _ e ht

theorem queue_min_level_cases (l : List (Nat × Int)) (init : Int) :
    queue_min_level l init = init ∨ ∃ e ∈ l, queue_min_level l init = e.2 := by
  induction l generalizing init with
  | nil => exact Or.inl rfl
  | cons a t ih =>
    have hstep : queue_min_level (a :: t) init
        = queue_min_level t (if init > a.2 then a.2 else init) := rfl
    rcases ih (if init > a.2 then a.2 else init) with h | ⟨e, he, heq⟩
    · by_cases hc : init > a.2
      · exact Or.inr ⟨a, List.mem_cons_self a t, by rw [hstep, h, if_pos hc]⟩
      · exact Or.inl (by rw [hstep, h, if_neg hc])
    · exact Or.inr ⟨e, List.mem_cons_of_mem a he, hstep ▸ heq⟩

theorem queue_min_level_attained (l : List (Nat × Int)) (init : Int)
    (hne : l ≠ []) (hb : ∀ e ∈ l, e.2 ≤ init) :
    ∃ e ∈ l, e.2 = queue_min_level l init := by
  rcases queue_min_level_cases l init with h | ⟨e, he, heq⟩
  · obtain ⟨a, t, rfl⟩ := List.exists_cons_of_ne_nil hne
    have h1 := queue_min_level_le_mem (a :: t) init a (List.mem_cons_self a t)
    have h2 := hb a (List.mem_cons_self a t)
    exact ⟨a, List.mem_cons_self a t, by omega⟩
  · exact ⟨e, he, heq.symm⟩

/-- Claim C5: `fetch_next` returns `false` exactly when no entries are
pending; otherwise it computes the minimum level among all pending
entries, moves exactly the entries at that minimum level (all of them)
into the current-wave vector, removes them from the pending store
leaving all other entries pending, and returns `true`.  (Levels are C++
`int`s, hence bounded by `INT_MAX`, the start of the minimum fold.) -/
theorem fetch_next_correct (q : topological_queue)
    (hb : ∀ e ∈ q.m_queue_data, e.2 ≤ int_max) :
    ((q.fetch_next).2 = false ↔ q.m_queue_data = [])
    ∧ (q.m_queue_data ≠ [] →
        ∃ m : Int,
          (∀ e ∈ q.m_queue_data, m ≤ e.2)
          ∧ (∃ e ∈ q.m_queue_data, e.2 = m)
          ∧ (q.fetch_next).1.m_next_data =
              (q.m_queue_data.filter (fun e => e.2 = m)).map Prod.fst
          ∧ (q.fetch_next).1.m_queue_data =
              q.m_queue_data.filter (fun e => e.2 ≠ m)) := by
  constructor
  · constructor
    · intro h
      by_contra hne
      obtain ⟨e, he, hm⟩ := queue_min_level_attained q.m_queue_data int_max hne hb
      have hmem : e.1 ∈ ((q.m_queue_data.partition
          (fun e => e.2 ≠ queue_min_level q.m_queue_data int_max)).2.map Prod.fst) := by
        rw [List.partition_eq_filter_filter]
        exact List.mem_map_of_mem Prod.fst (List.mem_filter.mpr ⟨he, by simp [hm]⟩)
      have hfalse : ((q.m_queue_data.partition
          (fun e => e.2 ≠ queue_min_level q.m_queue_data int_max)).2.map Prod.fst) = [] := by
        have := h
        simp only [topological_queue.fetch_next, Bool.not_eq_false'] at this
        exact List.isEmpty_iff.mp this
      rw [hfalse] at hmem
      cases hmem
    · intro h
      simp [topological_queue.fetch_next, h, List.partition_eq_filter_filter]
  · intro hne
    refine ⟨queue_min_level q.m_queue_data int_max,
      queue_min_level_le_mem q.m_queue_data int_max,
      queue_min_level_attained q.m_queue_data int_max hne hb, ?_, ?_⟩
    · simp only [topological_queue.fetch_next, List.partition_eq_filter_filter]
      congr 1
      refine List.filter_congr ?_
      intro e _
      simp [decide_not]
    · simp only [topological_queue.fetch_next, List.partition_eq_filter_filter]

/-- Witness for `fetch_next_correct`: a concrete queue with entries at
levels 2 and 1 yields the wave `[7]` (the node at minimal level 1) and
keeps the level-2 entry pending. -/
theorem fetch_next_correct_witness :
    (topological_queue.fetch_next { m_queue_data := [(3, 2), (7, 1)], m_next_data := [] }).2
      ≠ false
    ∧ ∃ m : Int,
        (∀ e ∈ [((3 : Nat), (2 : Int)), (7, 1)], m ≤ e.2)
        ∧ (∃ e ∈ [((3 : Nat), (2 : Int)), (7, 1)], e.2 = m)
        ∧ (topological_queue.fetch_next
            { m_queue_data := [(3, 2), (7, 1)], m_next_data := [] }).1.m_next_data =
            ([((3 : Nat), (2 : Int)), (7, 1)].filter (fun e => e.2 = m)).map Prod.fst
        ∧ (topological_queue.fetch_next
            { m_queue_data := [(3, 2), (7, 1)], m_next_data := [] }).1.m_queue_data =
            [((3 : Nat), (2 : Int)), (7, 1)].filter (fun e => e.2 ≠ m) := by
  have h := fetch_next_correct { m_queue_data := [(3, 2), (7, 1)], m_next_data := [] }
    (by decide)
  refine ⟨?_, h.2 (by decide)⟩
  intro hf
  exact absurd (h.1.mp hf) (by decide)

/-- Claim C6: when `flatten_node::tick` finds that the outer signal's
value designates a different inner node than the tracked one, it
replaces the tracked inner, performs a dynamic detach from the old
inner followed by a dynamic attach to the new inner (and
`on_dynamic_node_attach` re-enqueues the node, marking it queued and
pushing it at its level), and does not update its stored value or pulse
on that tick; only when the inner node is unchanged and the inner's
value is unequal to the stored value does it update the stored value
and pulse. -/
theorem flatten_tick_correct {α : Type} [DecidableEq α]
    (n : flatten_node α) (outer_value : Nat) (inner_value : Nat → α) :
    (outer_value ≠ n.m_inner →
      n.tick outer_value inner_value =
        ({ n with m_inner := outer_value },
          [.dyn_detach n.m_inner, .dyn_attach outer_value])
      ∧ (n.tick outer_value inner_value).1.m_value = n.m_value
      ∧ flatten_effect.pulse ∉ (n.tick outer_value inner_value).2)
    ∧ (outer_value = n.m_inner →
        (inner_value n.m_inner ≠ n.m_value →
          n.tick outer_value inner_value =
            ({ n with m_value := inner_value n.m_inner }, [.pulse]))
        ∧ (inner_value n.m_inner = n.m_value →
          n.tick outer_value inner_value = (n, [])))
    ∧ (∀ (g : node_map) (q : List (Nat × Int)) (node parent : Nat),
        ((on_dynamic_node_attach g q node parent).1 node).queued = true
        ∧ (on_dynamic_node_attach g q node parent).2 =
            q ++ [(node, ((on_dynamic_node_attach g q node parent).1 node).level)]) := by
  refine ⟨fun hne => ?_, fun heq => ⟨fun hval => ?_, fun hval => ?_⟩, fun g q node parent => ?_⟩
  · have h : n.tick outer_value inner_value =
        ({ n with m_inner := outer_value },
          [.dyn_detach n.m_inner, .dyn_attach outer_value]) := by
      simp [flatten_node.tick, hne]
    refine ⟨h, by rw [h], by rw [h]; simp⟩
  · simp [flatten_node.tick, heq, Ne.symm hval]
  · simp [flatten_node.tick, heq, hval]
  · exact ⟨by simp [on_dynamic_node_attach, node_map.upd], rfl⟩

/-- Witness for `flatten_tick_correct`: a concrete flatten node tracking
inner 1 whose outer now designates inner 2 rewires without touching its
value and without pulsing. -/
theorem flatten_tick_correct_witness :
    flatten_node.tick ({ m_value := 10, m_inner := 1 } : flatten_node Int) 2 (fun _ => 20) =
      ({ m_value := 10, m_inner := 2 },
        [.dyn_detach 1, .dyn_attach 2]) :=
  ((flatten_tick_correct ({ m_value := 10, m_inner := 1 } : flatten_node Int) 2
    (fun _ => 20)).1 (by decide)).1

/-- Claim C7 counterexample: the claim says a second `detach()` on the
same observer handle aborts.  On the code it does not: `detach` never
clears the handle's `m_node_ptr`, so the `assert(is_valid())` still
passes, and `unregister_observer`'s scan finds no matching observer and
silently does nothing.  Concretely, for a handle on observer 5 of a
subject whose observer list is `[5]`, the first detach removes the
observer and the second detach returns normally (`some`, not the
aborting `none`). -/
theorem observer_double_detach_no_abort :
    observer_handle.detach { m_node_ptr := some 5 } { m_observers := [5] } =
      some { m_observers := [] }
    ∧ observer_handle.detach { m_node_ptr := some 5 } { m_observers := [] } =
      some { m_observers := [] } := by decide

/-- Claim C7 (amended): a first `detach()` on a valid handle removes the
observer from its subject; a second `detach()` on the same handle does
not abort — the validity assert still passes (the handle keeps its node
pointer) and the unregister scan finds no matching observer and leaves
the subject unchanged; `detach()` aborts only on an invalid handle
(null node pointer, as in a default-constructed or moved-from
handle). -/
theorem observer_detach_correct (s : subject_state) (id : Nat) :
    observer_handle.detach { m_node_ptr := none } s = none
    ∧ (id ∈ s.m_observers →
        observer_handle.detach { m_node_ptr := some id } s =
          some { m_observers := s.m_observers.erase id })
    ∧ (id ∉ s.m_observers →
        observer_handle.detach { m_node_ptr := some id } s = some s) := by
  refine ⟨rfl, fun hmem => ?_, fun hnot => ?_⟩
  · simp [observer_handle.detach, subject_state.unregister_observer, hmem]
  · simp [observer_handle.detach, subject_state.unregister_observer, hnot]

/-- Witness for `observer_detach_correct`: detaching observer 5 from a
subject owning `[5]` leaves the subject with no observers, and a detach
when the observer is absent leaves the subject unchanged. -/
theorem observer_detach_correct_witness :
    observer_handle.detach { m_node_ptr := some 5 } { m_observers := [5] } =
      some { m_observers := [] }
    ∧ observer_handle.detach { m_node_ptr := some 5 } { m_observers := [7] } =
      some { m_observers := [7] } :=
  ⟨(observer_detach_correct { m_observers := [5] } 5).2.1 (by decide),
   (observer_detach_correct { m_observers := [7] } 5).2.2 (by decide)⟩

/-! ### Lemmas about the topology operations -/

theorem node_map.upd_same (g : node_map) (i : Nat) (f : reactive_node → reactive_node) :
    (g.upd i f) i = f (g i) := by
  simp [node_map.upd]

theorem node_map.upd_other (g : node_map) (i : Nat) (f : reactive_node → reactive_node)
    (j : Nat) (h : j ≠ i) : (g.upd i f) j = g j := by
  simp [node_map.upd, h]

theorem attach_bump_level_node (g1 : node_map) (node parent : Nat) :
    ((attach_bump g1 node parent) node).level =
      max (g1 node).level ((g1 parent).level + 1) := by
  unfold attach_bump
  by_cases hc : (g1 node).level ≤ (g1 parent).level
  · rw [if_pos hc, node_map.upd_same]
    show (g1 parent).level + 1 = max (g1 node).level ((g1 parent).level + 1)
    exact (max_eq_right (by omega)).symm
  · rw [if_neg hc]
    exact (max_eq_left (by omega)).symm

theorem attach_bump_level_other (g1 : node_map) (node parent x : Nat) (h : x ≠ node) :
    ((attach_bump g1 node parent) x).level = (g1 x).level := by
  unfold attach_bump
  by_cases hc : (g1 node).level ≤ (g1 parent).level
  · rw [if_pos hc, node_map.upd_other _ _ _ _ h]
  · rw [if_neg hc]

theorem attach_bump_succ (g1 : node_map) (node parent x : Nat) :
    ((attach_bump g1 node parent) x).successors = (g1 x).successors := by
  unfold attach_bump
  by_cases hc : (g1 node).level ≤ (g1 parent).level
  · rw [if_pos hc]
    by_cases hx : x = node
    · subst hx
      rw [node_map.upd_same]
    · rw [node_map.upd_other _ _ _ _ hx]
  · rw [if_neg hc]

theorem upd_append_level (g : node_map) (node parent x : Nat) :
    ((g.upd parent (fun p => { p with successors := p.successors ++ [node] })) x).level =
      (g x).level := by
  by_cases hx : x = parent
  · subst hx
    rw [node_map.upd_same]
  · rw [node_map.upd_other _ _ _ _ hx]

theorem on_node_attach_level (g : node_map) (node parent : Nat) :
    ((on_node_attach g node parent) node).level =
      max (g node).level ((g parent).level + 1) := by
  unfold on_node_attach
  rw [attach_bump_level_node, upd_append_level, upd_append_level]

theorem on_node_attach_level_other (g : node_map) (node parent x : Nat) (h : x ≠ node) :
    ((on_node_attach g node parent) x).level = (g x).level := by
  unfold on_node_attach
  rw [attach_bump_level_other _ _ _ _ h, upd_append_level]

theorem on_node_attach_succ_parent (g : node_map) (node parent : Nat) :
    ((on_node_attach g node parent) parent).successors =
      (g parent).successors ++ [node] := by
  unfold on_node_attach
  rw [attach_bump_succ, node_map.upd_same]

theorem on_node_attach_succ_other (g : node_map) (node parent x : Nat)
    (hp : x ≠ parent) :
    ((on_node_attach g node parent) x).successors = (g x).successors := by
  unfold on_node_attach
  rw [attach_bump_succ, node_map.upd_other _ _ _ _ hp]

theorem on_node_detach_level (g : node_map) (node parent q : Nat) :
    ((on_node_detach g node parent) q).level = (g q).level := by
  unfold on_node_detach
  by_cases hq : q = parent
  · subst hq
    rw [node_map.upd_same]
  · rw [node_map.upd_other _ _ _ _ hq]

theorem on_node_detach_succ (g : node_map) (node parent p : Nat) (s : Nat)
    (hs : s ∈ ((on_node_detach g node parent) p).successors) :
    s ∈ (g p).successors := by
  unfold on_node_detach at hs
  by_cases hp : p = parent
  · rw [hp] at hs ⊢
    rw [node_map.upd_same] at hs
    exact List.mem_of_mem_erase hs
  · rw [node_map.upd_other _ _ _ _ hp] at hs
    exact hs

/-- Edge-invariant preservation by a fresh attach: attaching a node with
no outgoing edges (and distinct from its parent) keeps every edge
`p → s` satisfying `level(s) > level(p)`. -/
theorem edge_invariant_attach (g : node_map) (node parent : Nat)
    (hfresh : (g node).successors = []) (hne : node ≠ parent)
    (hinv : edge_invariant g) : edge_invariant (on_node_attach g node parent) := by
  intro p s hs
  by_cases hp : p = parent
  · rw [hp] at hs ⊢
    rw [on_node_attach_succ_parent] at hs
    rw [on_node_attach_level_other g node parent parent (Ne.symm hne)]
    rcases List.mem_append.mp hs with hold | hnew
    · by_cases hsn : s = node
      · rw [hsn, on_node_attach_level]
        exact lt_of_lt_of_le (by omega) (le_max_right _ _)
      · rw [on_node_attach_level_other g node parent s hsn]
        exact hinv parent s hold
    · have hsn : s = node := by simpa using hnew
      rw [hsn, on_node_attach_level]
      exact lt_of_lt_of_le (by omega) (le_max_right _ _)
  · by_cases hpn : p = node
    · rw [hpn] at hs
      rw [on_node_attach_succ_other g node parent node hne, hfresh] at hs
      cases hs
    · rw [on_node_attach_succ_other g node parent p hp] at hs
      rw [on_node_attach_level_other g node parent p hpn]
      by_cases hsn : s = node
      · rw [hsn, on_node_attach_level]
        exact lt_of_lt_of_le (hinv p node (hsn ▸ hs)) (le_max_left _ _)
      · rw [on_node_attach_level_other g node parent s hsn]
        exact hinv p s hs

/-- Edge-invariant preservation by a detach: levels are untouched and
the successor lists only shrink. -/
theorem edge_invariant_detach (g : node_map) (node parent : Nat)
    (hinv : edge_invariant g) : edge_invariant (on_node_detach g node parent) := by
  intro p s hs
  rw [on_node_detach_level g node parent p, on_node_detach_level g node parent s]
  exact hinv p s (on_node_detach_succ g node parent p s hs)

/-- Edge-invariant preservation along a fresh run. -/
theorem edge_invariant_fresh_run (g : node_map) (ops : List graph_op)
    (hrun : fresh_run g ops) (hinv : edge_invariant g) :
    edge_invariant (run_ops g ops) := by
  induction hrun with
  | nil g => exact hinv
  | attach g node parent ops hfresh hne hrest ih =>
    exact ih (edge_invariant_attach g node parent hfresh hne hinv)
  | detach g node parent ops hrest ih =>
    exact ih (edge_invariant_detach g node parent hinv)

/-- Claim C3 counterexample: the claim asserts that after any sequence
of edge additions and removals (with nothing pending in the scheduler —
plain `on_node_attach`/`on_node_detach` never enqueue, so propagation
is trivially settled) every edge `p → s` satisfies
`level(s) > level(p)`.  The concrete sequence attach 1→0 (level 1
becomes 1), attach 2→1 (level 2 becomes 2), attach 3→0 (level 3 becomes
1), attach 1→3 (level 1 bumped to 2) leaves the edge 1 → 2 with
`level(2) = 2 = level(1)`, violating the invariant: `on_node_attach`
raises the re-attached node's own level but not the levels of its
existing successors. -/
theorem edge_invariant_counterexample :
    2 ∈ ((run_ops init_nodes
        [.attach 1 0, .attach 2 1, .attach 3 0, .attach 1 3]) 1).successors
    ∧ ¬ (((run_ops init_nodes
        [.attach 1 0, .attach 2 1, .attach 3 0, .attach 1 3]) 1).level <
        ((run_ops init_nodes
        [.attach 1 0, .attach 2 1, .attach 3 0, .attach 1 3]) 2).level) := by
  decide

/-- Claim C3 (amended): every edge addition sets the successor's level
to `max(successor.level, predecessor.level + 1)`, and edge removal
never lowers any level.  The invariant `level(s) > level(p)` for every
edge `p → s` is preserved by any sequence of edge removals and of edge
additions in each of which the attached successor has no outgoing edges
at attach time and is distinct from its parent — which is how the
engine uses `on_node_attach` statically (only node constructors call
it, for the node under construction).  (Re-attaching a node that
already has successors — the dynamic flatten path — can break the
invariant for the node's existing outgoing edges; the code then only
raises those successors' `new_level`, and their `level` is fixed up
lazily when they are next scheduled, so the unqualified claim fails,
see the counterexample.) -/
theorem level_topology_correct :
    (∀ (g : node_map) (node parent : Nat),
      ((on_node_attach g node parent) node).level =
        max (g node).level ((g parent).level + 1))
    ∧ (∀ (g : node_map) (node parent q : Nat),
      ((on_node_detach g node parent) q).level = (g q).level)
    ∧ (∀ (g : node_map) (ops : List graph_op),
      fresh_run g ops → edge_invariant g → edge_invariant (run_ops g ops)) :=
  ⟨on_node_attach_level, on_node_detach_level, edge_invariant_fresh_run⟩

/-- Witness for `level_topology_correct`: the attach-level formula at a
concrete store, and the invariant after a concrete fresh run. -/
theorem level_topology_correct_witness :
    ((on_node_attach init_nodes 1 0) 1).level =
      max (init_nodes 1).level ((init_nodes 0).level + 1)
    ∧ edge_invariant (run_ops init_nodes [.attach 1 0, .attach 2 1]) :=
  ⟨level_topology_correct.1 init_nodes 1 0,
   level_topology_correct.2.2 init_nodes [.attach 1 0, .attach 2 1]
    (fresh_run.attach init_nodes 1 0 [.attach 2 1] rfl (by decide)
      (fresh_run.attach (on_node_attach init_nodes 1 0) 2 1 [] (by decide) (by decide)
        (fresh_run.nil _)))
    (by intro p s hs; simp [init_nodes, reactive_node.init] at hs)⟩

/-! ### Lemmas about the transaction machinery -/

theorem pc_step_preserves (gc : graph_state) (succ : Nat) :
    (gc.pc_step succ).m_vars = gc.m_vars
    ∧ (gc.pc_step succ).m_transaction_level = gc.m_transaction_level
    ∧ (gc.pc_step succ).m_changed_inputs = gc.m_changed_inputs
    ∧ (gc.pc_step succ).m_detached_observers = gc.m_detached_observers
    ∧ (gc.pc_step succ).propagate_count = gc.propagate_count
    ∧ (gc.pc_step succ).unregistered = gc.unregistered := by
  unfold graph_state.pc_step
  split <;> exact ⟨rfl, rfl, rfl, rfl, rfl, rfl⟩

theorem pc_foldl_preserves (l : List Nat) (g : graph_state) :
    (l.foldl graph_state.pc_step g).m_vars = g.m_vars
    ∧ (l.foldl graph_state.pc_step g).m_transaction_level = g.m_transaction_level
    ∧ (l.foldl graph_state.pc_step g).m_changed_inputs = g.m_changed_inputs
    ∧ (l.foldl graph_state.pc_step g).m_detached_observers = g.m_detached_observers
    ∧ (l.foldl graph_state.pc_step g).propagate_count = g.propagate_count
    ∧ (l.foldl graph_state.pc_step g).unregistered = g.unregistered := by
  induction l generalizing g with
  | nil => exact ⟨rfl, rfl, rfl, rfl, rfl, rfl⟩
  | cons a t ih =>
    have hs := pc_step_preserves g a
    have hi := ih (g.pc_step a)
    simp only [List.foldl_cons]
    exact ⟨hi.1.trans hs.1, hi.2.1.trans hs.2.1, hi.2.2.1.trans hs.2.2.1,
      hi.2.2.2.1.trans hs.2.2.2.1, hi.2.2.2.2.1.trans hs.2.2.2.2.1,
      hi.2.2.2.2.2.trans hs.2.2.2.2.2⟩

theorem process_children_preserves (g : graph_state) (node : Nat) :
    (g.process_children node).m_vars = g.m_vars
    ∧ (g.process_children node).m_transaction_level = g.m_transaction_level
    ∧ (g.process_children node).m_changed_inputs = g.m_changed_inputs
    ∧ (g.process_children node).m_detached_observers = g.m_detached_observers
    ∧ (g.process_children node).propagate_count = g.propagate_count
    ∧ (g.process_children node).unregistered = g.unregistered :=
  pc_foldl_preserves (g.m_nodes node).successors g

/-- The pure `apply_input` always leaves the pending-set flag clear. -/
theorem var_apply_input_added_false {α : Type} [DecidableEq α] (n : var_node α) :
    ((var_node.apply_input n).node).m_is_input_added = false := by
  unfold var_node.apply_input
  by_cases ha : n.m_is_input_added
  · rw [if_pos ha]
    split <;> rfl
  · have ha' : n.m_is_input_added = false := by simpa using ha
    rw [if_neg ha]
    split <;> simpa using ha'

theorem apply_input_preserves (g : graph_state) (id : Nat) :
    (g.apply_input id).2.m_transaction_level = g.m_transaction_level
    ∧ (g.apply_input id).2.m_changed_inputs = g.m_changed_inputs
    ∧ (g.apply_input id).2.m_detached_observers = g.m_detached_observers
    ∧ (g.apply_input id).2.propagate_count = g.propagate_count
    ∧ (g.apply_input id).2.unregistered = g.unregistered := by
  simp only [graph_state.apply_input, graph_state.on_input_change]
  split
  · have h := process_children_preserves
      (g.set_var id ((g.m_vars id).apply_input).node) id
    exact ⟨h.2.1, h.2.2.1, h.2.2.2.1, h.2.2.2.2.1, h.2.2.2.2.2⟩
  · exact ⟨rfl, rfl, rfl, rfl, rfl⟩

theorem apply_input_m_vars_self (g : graph_state) (id : Nat) :
    (g.apply_input id).2.m_vars id = ((g.m_vars id).apply_input).node := by
  simp only [graph_state.apply_input, graph_state.on_input_change]
  split
  · rw [(process_children_preserves
      (g.set_var id ((g.m_vars id).apply_input).node) id).1]
    simp [graph_state.set_var]
  · simp [graph_state.set_var]

theorem apply_input_m_vars_other (g : graph_state) (i id : Nat) (h : id ≠ i) :
    (g.apply_input i).2.m_vars id = g.m_vars id := by
  simp only [graph_state.apply_input, graph_state.on_input_change]
  split
  · rw [(process_children_preserves
      (g.set_var i ((g.m_vars i).apply_input).node) i).1]
    simp [graph_state.set_var, h]
  · simp [graph_state.set_var, h]

theorem ai_foldl_preserves (ids : List Nat) (b : Bool) (g : graph_state) :
    (ids.foldl graph_state.ai_step (b, g)).2.m_transaction_level = g.m_transaction_level
    ∧ (ids.foldl graph_state.ai_step (b, g)).2.m_changed_inputs = g.m_changed_inputs
    ∧ (ids.foldl graph_state.ai_step (b, g)).2.m_detached_observers = g.m_detached_observers
    ∧ (ids.foldl graph_state.ai_step (b, g)).2.propagate_count = g.propagate_count
    ∧ (ids.foldl graph_state.ai_step (b, g)).2.unregistered = g.unregistered := by
  induction ids generalizing b g with
  | nil => exact ⟨rfl, rfl, rfl, rfl, rfl⟩
  | cons a t ih =>
    have hs := apply_input_preserves g a
    have hi := ih (b || (g.apply_input a).1) (g.apply_input a).2
    simp only [List.foldl_cons, graph_state.ai_step]
    exact ⟨hi.1.trans hs.1, hi.2.1.trans hs.2.1, hi.2.2.1.trans hs.2.2.1,
      hi.2.2.2.1.trans hs.2.2.2.1, hi.2.2.2.2.trans hs.2.2.2.2⟩

/-- After the apply loop, every staged input that was in the list (and
every var whose pending-set flag was already clear) has a clear
pending-set flag. -/
theorem ai_foldl_added_false (ids : List Nat) (b : Bool) (g : graph_state) (id : Nat)
    (h : id ∈ ids ∨ (g.m_vars id).m_is_input_added = false) :
    ((ids.foldl graph_state.ai_step (b, g)).2.m_vars id).m_is_input_added = false := by
  induction ids generalizing b g with
  | nil =>
    rcases h with h | h
    · cases h
    · exact h
  | cons a t ih =>
    simp only [List.foldl_cons, graph_state.ai_step]
    by_cases hid : id = a
    · refine ih (b || (g.apply_input a).1) (g.apply_input a).2 (Or.inr ?_)
      rw [hid, apply_input_m_vars_self]
      exact var_apply_input_added_false (g.m_vars a)
    · rcases h with h | h
      · rcases List.mem_cons.mp h with h' | h'
        · exact absurd h' hid
        · exact ih _ _ (Or.inl h')
      · refine ih (b || (g.apply_input a).1) (g.apply_input a).2 (Or.inr ?_)
        rw [apply_input_m_vars_other g a id hid]
        exact h

/-- Claim C4: the transaction body runs with the nesting level
incremented; if after decrementing the level is still nonzero the call
returns immediately (no apply, no propagation, no observer cleanup);
only at the outermost exit are all staged input nodes applied (their
pending-set flags end up clear), propagation run exactly once if any
apply returned `true` (and not at all otherwise), the staged-input list
cleared, and the queued observer detaches processed. -/
theorem do_transaction_correct (g : graph_state) (func : graph_state → graph_state) :
    let g2 := func { g with m_transaction_level := g.m_transaction_level + 1 };
    let g3 := { g2 with m_transaction_level := g2.m_transaction_level - 1 };
    let r := g3.apply_inputs g3.m_changed_inputs;
    (g3.m_transaction_level ≠ 0 → g.do_transaction func = g3)
    ∧ (g3.m_transaction_level = 0 →
        (∀ id ∈ g3.m_changed_inputs,
          ((g.do_transaction func).m_vars id).m_is_input_added = false)
        ∧ (g.do_transaction func).m_vars = r.2.m_vars
        ∧ (g.do_transaction func).m_changed_inputs = []
        ∧ (g.do_transaction func).propagate_count =
            g2.propagate_count + (if r.1 then 1 else 0)
        ∧ (g.do_transaction func).m_detached_observers = []
        ∧ (g.do_transaction func).unregistered =
            r.2.unregistered ++ r.2.m_detached_observers) := by
  intro g2 g3 r
  have hdef : g.do_transaction func =
      if g3.m_transaction_level ≠ 0 then g3
      else
        (if r.1 then ({ r.2 with m_changed_inputs := [] } : graph_state).propagate
         else { r.2 with m_changed_inputs := [] }).detach_queued_observers := rfl
  constructor
  · intro h
    rw [hdef, if_pos h]
  · intro h
    rw [hdef, if_neg (fun hc => hc h)]
    have hpres := ai_foldl_preserves g3.m_changed_inputs false g3
    have hvars : (if r.1 then ({ r.2 with m_changed_inputs := [] } : graph_state).propagate
        else { r.2 with m_changed_inputs := [] }).detach_queued_observers.m_vars =
        r.2.m_vars := by
      by_cases hr : r.1 <;>
        simp [hr, graph_state.detach_queued_observers, graph_state.propagate]
    refine ⟨?_, hvars, ?_, ?_, ?_, ?_⟩
    · intro id hid
      rw [hvars]
      exact ai_foldl_added_false g3.m_changed_inputs false g3 id (Or.inl hid)
    · by_cases hr : r.1 <;>
        simp [hr, graph_state.detach_queued_observers, graph_state.propagate]
    · have hpc : r.2.propagate_count = g2.propagate_count := hpres.2.2.2.1
      by_cases hr : r.1 <;>
        simp [hr, graph_state.detach_queued_observers, graph_state.propagate, hpc]
    · by_cases hr : r.1 <;>
        simp [hr, graph_state.detach_queued_observers, graph_state.propagate]
    · by_cases hr : r.1 <;>
        simp [hr, graph_state.detach_queued_observers, graph_state.propagate]

/-- Witness for `do_transaction_correct`: a transaction on the concrete
quiescent state whose body stages a set of 5 on var 0; at the outermost
exit the staged list is cleared, the staged set is applied (flag
cleared) and exactly one propagation runs. -/
theorem do_transaction_correct_witness :
    (quiet_state.do_transaction (fun s => s.add_input 0 5)).m_changed_inputs = []
    ∧ (quiet_state.do_transaction (fun s => s.add_input 0 5)).m_detached_observers = []
    ∧ ((quiet_state.do_transaction (fun s => s.add_input 0 5)).m_vars 0).m_is_input_added
        = false :=
  ⟨((do_transaction_correct quiet_state (fun s => s.add_input 0 5)).2 (by decide)).2.2.1,
   ((do_transaction_correct quiet_state (fun s => s.add_input 0 5)).2
      (by decide)).2.2.2.2.1,
   ((do_transaction_correct quiet_state (fun s => s.add_input 0 5)).2 (by decide)).1 0
      (by decide)⟩

/-- Claim C9: writing a var's current value back to it causes zero
downstream ticks.  Outside a transaction (`add_simple_input`), the
equality gate in `apply_input` reports no change, so no successor is
scheduled (the scheduler queue and all `queued` flags are untouched)
and no propagation runs, hence no computed node or observer runs; the
live value is unchanged.  Inside a transaction, the staged equal write
is applied at the outermost exit: `apply_input` on a var whose staged
value equals its live value returns `false` and schedules nothing. -/
theorem equal_set_no_downstream (g : graph_state) (id : Nat) :
    (¬ g.m_transaction_level > 0 →
      (g.add_input id ((g.m_vars id).m_value)).m_scheduled = g.m_scheduled
      ∧ (g.add_input id ((g.m_vars id).m_value)).m_nodes = g.m_nodes
      ∧ (g.add_input id ((g.m_vars id).m_value)).propagate_count = g.propagate_count
      ∧ ((g.add_input id ((g.m_vars id).m_value)).m_vars id).m_value =
          (g.m_vars id).m_value)
    ∧ ((g.m_vars id).m_is_input_added = true →
        (g.m_vars id).m_new_value = (g.m_vars id).m_value →
        (g.apply_input id).1 = false
        ∧ (g.apply_input id).2.m_scheduled = g.m_scheduled
        ∧ (g.apply_input id).2.m_nodes = g.m_nodes) := by
  constructor
  · intro h
    simp [graph_state.add_input, h, graph_state.add_simple_input, graph_state.apply_input,
      graph_state.set_var, graph_state.detach_queued_observers, var_node.add_input,
      var_node.apply_input]
  · intro ha he
    simp [graph_state.apply_input, var_node.apply_input, ha, he, graph_state.set_var]

/-- Witness for `equal_set_no_downstream`: an equal write of 0 (the
current value of var 0) on the quiescent state leaves the scheduler and
the propagation count untouched, and applying a var of the concrete
state staged with its own live value reports no change. -/
theorem equal_set_no_downstream_witness :
    ((quiet_state.add_input 0 ((quiet_state.m_vars 0).m_value)).m_scheduled =
        quiet_state.m_scheduled
      ∧ (quiet_state.add_input 0 ((quiet_state.m_vars 0).m_value)).m_nodes =
          quiet_state.m_nodes
      ∧ (quiet_state.add_input 0 ((quiet_state.m_vars 0).m_value)).propagate_count =
          quiet_state.propagate_count
      ∧ ((quiet_state.add_input 0 ((quiet_state.m_vars 0).m_value)).m_vars 0).m_value =
          (quiet_state.m_vars 0).m_value)
    ∧ (({ quiet_state with m_vars := fun _ =>
            { m_value := 3, m_new_value := 3,
              m_is_input_added := true, m_is_input_modified := false } }.apply_input 0).1
          = false) :=
  ⟨(equal_set_no_downstream quiet_state 0).1 (by decide),
   ((equal_set_no_downstream
      { quiet_state with m_vars := fun _ =>
          { m_value := 3, m_new_value := 3,
            m_is_input_added := true, m_is_input_modified := false } } 0).2
      rfl rfl).1⟩

/-- Claim C10: inside a transaction, when no set is pending on the var,
`modify` mutates the live value immediately — a read of the value after
the call (before the transaction ends) already returns `func` applied
to the old value, with no propagation having occurred and nothing
scheduled — whereas `set` inside a transaction leaves the live value
unchanged (it is only staged, to be applied at the outermost exit). -/
theorem modify_in_transaction_immediate (g : graph_state) (id : Nat)
    (func : Int → Int) (v : Int) :
    g.m_transaction_level > 0 →
    ((g.m_vars id).m_is_input_added = false →
      ((g.modify_input id func).m_vars id).m_value = func ((g.m_vars id).m_value)
      ∧ (g.modify_input id func).propagate_count = g.propagate_count
      ∧ (g.modify_input id func).m_scheduled = g.m_scheduled)
    ∧ (((g.add_input id v).m_vars id).m_value = (g.m_vars id).m_value
      ∧ (g.add_input id v).propagate_count = g.propagate_count) := by
  intro ht
  constructor
  · intro ha
    simp [graph_state.modify_input, ht, graph_state.modify_transaction_input,
      graph_state.set_var, var_node.modify_input, ha]
  · constructor
    · simp [graph_state.add_input, ht, graph_state.add_transaction_input,
        graph_state.set_var, var_node.add_input]
    · simp [graph_state.add_input, ht, graph_state.add_transaction_input,
        graph_state.set_var, var_node.add_input]

/-- Witness for `modify_in_transaction_immediate`: inside a transaction
(nesting level 1) on a state whose var 0 holds 10 with nothing pending,
`modify (+1)` makes an immediate read of the value return 11 with no
propagation, while `set 42` leaves the live value at 10. -/
theorem modify_in_transaction_immediate_witness :
    (({ quiet_state with
          m_transaction_level := 1,
          m_vars := fun _ =>
            { m_value := 10, m_new_value := 0,
              m_is_input_added := false, m_is_input_modified := false } }.modify_input 0
        (fun x => x + 1)).m_vars 0).m_value = 11
    ∧ (({ quiet_state with
          m_transaction_level := 1,
          m_vars := fun _ =>
            { m_value := 10, m_new_value := 0,
              m_is_input_added := false, m_is_input_modified := false } }.add_input 0
        42).m_vars 0).m_value = 10 := by
  have h := modify_in_transaction_immediate
    { quiet_state with
      m_transaction_level := 1,
      m_vars := fun _ =>
        { m_value := 10, m_new_value := 0,
          m_is_input_added := false, m_is_input_modified := false } }
    0 (fun x => x + 1) 42 (by decide)
  exact ⟨(h.1 rfl).1, h.2.1⟩

end Ureact
